import Mathlib

/-!
Verification development for the nquery reactive core and query cache.

The definitions below are a shallow embedding of the reactive system
(`scheduleEffect`, `effect`/`cleanupEffect`, `signal`) and of the query cache
(`Query._run`, `Query.isStale`, `QueryClient.createQuery`, `hashKey`) from the
source file.  JavaScript numbers appearing as data values are modelled as
`Int`, timestamps (`Date.now()`) as `Nat`, the four status strings as an
inductive type, JS `Set`s (which iterate in insertion order and deduplicate
on `add`) as duplicate-free lists, and JS `Map`/object lookups as functions
or association lists.  Asynchronous `_run` is split at its single `await`
point into a synchronous prefix (`startRun`) and a synchronous completion
(`completeSuccess` / `completeFailure`); callback invocations
(`onSuccess`/`onError`/`onSettled`) are modelled as emitted events.
-/

namespace NQuery

/-! ### Scheduler (`scheduleEffect`)

`_effectQueue` is a JS `Set` of effect runners: `add` is a no-op when the
element is already present, iteration is in insertion order.  We model the
queue as a duplicate-free list and `Set.add` as `addDedup`. -/

/-- `_effectQueue.add(effectFn)`: insert at the end unless already present. -/
def addDedup (q : List Nat) (e : Nat) : List Nat :=
  if e ∈ q then q else q ++ [e]

/-- `subs.forEach(effectFn => scheduleEffect(effectFn))`: schedule every
subscriber of a signal. -/
def scheduleAll (q : List Nat) (es : List Nat) : List Nat :=
  es.foldl addDedup q

/-- Membership in the queue after a `Set.add`. -/
theorem mem_addDedup (q : List Nat) (a b : Nat) :
    a ∈ addDedup q b ↔ a ∈ q ∨ a = b := by
  unfold addDedup
  split
  · constructor
    · exact fun h => Or.inl h
    · rintro (h | rfl)
      · exact h
      · assumption
  · simp

/-- `Set.add` keeps the queue duplicate-free. -/
theorem addDedup_nodup (q : List Nat) (e : Nat) (h : q.Nodup) :
    (addDedup q e).Nodup := by
  unfold addDedup
  split
  · exact h
  · next hne => simp [List.nodup_append, h, hne]

/-- Scheduling any batch of subscribers keeps the queue duplicate-free. -/
theorem scheduleAll_nodup (es : List Nat) (q : List Nat) (h : q.Nodup) :
    (scheduleAll q es).Nodup := by
  induction es generalizing q with
  | nil => exact h
  | cons e es ih => exact ih (addDedup q e) (addDedup_nodup q e h)

/-! ### A signal with one `subscribe` callback (claim C2)

`signal(initial, {equals})` stores `_val` and a subscriber set; `subscribe(fn)`
adds the wrapper `() => fn(_val)` to that set.  A committed write
(`!equals(_val, v)`) stores the new value and passes every subscriber to
`scheduleEffect`, i.e. adds the wrapper to the microtask queue (deduplicated).
The wrapper reads `_val` when the queue is flushed.  For a single subscribed
callback, queue membership of its wrapper is a `Bool`.  A "turn" is a list of
synchronous writes; the microtask flush runs after each turn. -/

structure SubW (α : Type) where
  val : α
  queued : Bool

/-- `set value(v)`: if `equals(_val, v)` do nothing, else store `v` and
schedule the subscriber's wrapper. -/
def writeS (eq : α → α → Bool) (w : SubW α) (v : α) : SubW α :=
  if eq w.val v then w else { val := v, queued := true }

/-- A synchronous turn of writes. -/
def turnS (eq : α → α → Bool) (w : SubW α) (ws : List α) : SubW α :=
  ws.foldl (writeS eq) w

/-- The microtask flush: if the wrapper is queued, run it once — it reads the
current `_val` — and clear the queue. -/
def flushS (w : SubW α) : SubW α × List α :=
  if w.queued then ({ w with queued := false }, [w.val]) else (w, [])

/-- Run a list of turns, flushing after each; collect every value the
subscriber callback is invoked with. -/
def runTurnsS (eq : α → α → Bool) (w : SubW α) : List (List α) → SubW α × List α
  | [] => (w, [])
  | t :: ts =>
      let w1 := turnS eq w t
      let p := flushS w1
      let rest := runTurnsS eq p.1 ts
      (rest.1, p.2 ++ rest.2)

/-- The value after a turn of writes, threading the equality test. -/
def applyWrites (eq : α → α → Bool) (v : α) : List α → α
  | [] => v
  | w :: ws => applyWrites eq (if eq v w then v else w) ws

/-- Whether at least one write in the turn commits (is not equal to the value
current when it is applied). -/
def turnFires (eq : α → α → Bool) (v : α) : List α → Bool
  | [] => false
  | w :: ws => if eq v w then turnFires eq v ws else true

/-- Specification of the invocation log: one invocation per turn containing a
committed write, carrying the value at that flush. -/
def specTurns (eq : α → α → Bool) (v : α) : List (List α) → List α
  | [] => []
  | t :: ts =>
      let v1 := applyWrites eq v t
      if turnFires eq v t then v1 :: specTurns eq v1 ts else specTurns eq v1 ts

/-- Number of writes in a flat sequence whose value is not equal (under `eq`)
to the immediately preceding value. -/
def countCommits (eq : α → α → Bool) (v : α) : List α → Nat
  | [] => 0
  | w :: ws => if eq v w then countCommits eq v ws else countCommits eq w ws + 1

theorem turnS_eq (eq : α → α → Bool) (t : List α) (w : SubW α) :
    turnS eq w t = ⟨applyWrites eq w.val t, w.queued || turnFires eq w.val t⟩ := by
  induction t generalizing w with
  | nil => cases w; simp [turnS, applyWrites, turnFires]
  | cons x t ih =>
      have hstep : turnS eq w (x :: t) = turnS eq (writeS eq w x) t := rfl
      rw [hstep, ih]
      by_cases hc : eq w.val x = true
      · simp [writeS, hc, applyWrites, turnFires]
      · simp [writeS, hc, applyWrites, turnFires]

theorem runTurnsS_spec (eq : α → α → Bool) (ts : List (List α)) (v : α) :
    (runTurnsS eq ⟨v, false⟩ ts).2 = specTurns eq v ts := by
  induction ts generalizing v with
  | nil => rfl
  | cons t ts ih =>
      show ((runTurnsS eq ⟨v, false⟩ (t :: ts)).2 = _)
      rw [runTurnsS, turnS_eq]
      by_cases hf : turnFires eq v t = true
      · simp [flushS, hf, specTurns, ih]
      · simp [flushS, hf, specTurns, ih]

theorem specTurns_singletons (eq : α → α → Bool) (ws : List α) (v : α) :
    (specTurns eq v (ws.map fun x => [x])).length = countCommits eq v ws := by
  induction ws generalizing v with
  | nil => rfl
  | cons x ws ih =>
      by_cases hc : eq v x = true
      · simp [specTurns, applyWrites, turnFires, hc, countCommits, ih]
      · simp [specTurns, applyWrites, turnFires, hc, countCommits, ih]

end NQuery

/-- Claim C2 (counterexample): with the default equality, the two distinct
synchronous writes `1, 2` to a signal holding `0` commit twice, yet the
subscribed callback is invoked exactly once — the wrapper is deduplicated in
the microtask queue — and it receives the final value `2`.  The claim predicts
two invocations. -/
theorem c2_subscribe_count_counterexample :
    (NQuery.runTurnsS (fun a b : Int => a == b) ⟨0, false⟩ [[1, 2]]).2 = [2] ∧
    NQuery.countCommits (fun a b : Int => a == b) 0 [1, 2] = 2 ∧
    ¬((NQuery.runTurnsS (fun a b : Int => a == b) ⟨0, false⟩ [[1, 2]]).2.length =
        NQuery.countCommits (fun a b : Int => a == b) 0 [1, 2]) := by
  refine ⟨rfl, rfl, ?_⟩
  decide

/-- Claim C2 (amended): a committed (non-equal) write schedules the subscribed
callback in the deduplicating microtask queue, so the callback runs at most
once per flush: the invocation log equals one invocation per turn containing
a committed write, carrying the signal's value at that flush (`specTurns`);
when every turn holds a single write the invocation count equals the number of
writes not equal to the immediately preceding value; a turn holding one write
equal to the current value produces no invocation. -/
theorem c2_subscribe_flush_semantics (eq : Int → Int → Bool) (v : Int)
    (ts : List (List Int)) (ws : List Int) :
    (NQuery.runTurnsS eq ⟨v, false⟩ ts).2 = NQuery.specTurns eq v ts ∧
    (NQuery.runTurnsS eq ⟨v, false⟩ (ws.map fun x => [x])).2.length =
      NQuery.countCommits eq v ws ∧
    (∀ x, (NQuery.runTurnsS eq ⟨v, false⟩ [[x]]).2 =
      if eq v x then [] else [x]) := by
  refine ⟨NQuery.runTurnsS_spec eq ts v, ?_, ?_⟩
  · rw [NQuery.runTurnsS_spec]
    exact NQuery.specTurns_singletons eq ws v
  · intro x
    rw [NQuery.runTurnsS_spec]
    by_cases hc : eq v x = true
    · simp [NQuery.specTurns, NQuery.applyWrites, NQuery.turnFires, hc]
    · simp [NQuery.specTurns, NQuery.applyWrites, NQuery.turnFires, hc]

namespace NQuery

/-! ### Multiple signals and dependent effects in one turn (claim C5)

`RWorld` holds the values of all signals (by index), the subscriber set of
each signal, and the pending effect queue.  A write with the default equality
(`(a, b) => a === b`) that commits schedules every subscriber of that signal;
the flush then runs each queued effect once against the then-current signal
values. -/

structure RWorld where
  vals : Nat → Int
  subsOf : Nat → List Nat
  queue : List Nat

/-- `sig.value = v` on signal `i` with the default equality: commit and
schedule dependents only when the value changes. -/
def writeSig (w : RWorld) (i : Nat) (v : Int) : RWorld :=
  if w.vals i == v then w
  else { w with vals := Function.update w.vals i v,
                queue := scheduleAll w.queue (w.subsOf i) }

/-- One synchronous turn: a sequence of writes to (possibly several) signals. -/
def runTurn (w : RWorld) (ws : List (Nat × Int)) : RWorld :=
  ws.foldl (fun w p => writeSig w p.1 p.2) w

/-- The flush at the microtask boundary: each queued effect runs once and
observes the signal values current at that point. -/
def flushLog (w : RWorld) : List (Nat × (Nat → Int)) :=
  w.queue.map (fun e => (e, w.vals))

theorem writeSig_nodup (w : RWorld) (i : Nat) (v : Int) (h : w.queue.Nodup) :
    (writeSig w i v).queue.Nodup := by
  unfold writeSig
  split
  · exact h
  · exact scheduleAll_nodup (w.subsOf i) w.queue h

theorem runTurn_nodup (ws : List (Nat × Int)) (w : RWorld) (h : w.queue.Nodup) :
    (runTurn w ws).queue.Nodup := by
  induction ws generalizing w with
  | nil => exact h
  | cons p ws ih => exact ih (writeSig w p.1 p.2) (writeSig_nodup w p.1 p.2 h)

end NQuery

/-- Claim C5: for any set of synchronous writes to any signals performed in
one turn starting from an idle scheduler, each dependent effect occurs at most
once in the resulting microtask queue — so it is re-run at most once by the
flush — and every entry of the flush log observes exactly the final post-turn
signal values. -/
theorem c5_batched_flush_once (vals : Nat → Int) (subsOf : Nat → List Nat)
    (ws : List (Nat × Int)) (e : Nat) :
    (NQuery.runTurn ⟨vals, subsOf, []⟩ ws).queue.count e ≤ 1 ∧
    (NQuery.flushLog (NQuery.runTurn ⟨vals, subsOf, []⟩ ws)).map Prod.snd =
      List.replicate (NQuery.runTurn ⟨vals, subsOf, []⟩ ws).queue.length
        (NQuery.runTurn ⟨vals, subsOf, []⟩ ws).vals := by
  constructor
  · exact List.nodup_iff_count_le_one.mp
      (NQuery.runTurn_nodup ws ⟨vals, subsOf, []⟩ List.nodup_nil) e
  · simp [NQuery.flushLog]
    generalize (NQuery.runTurn ⟨vals, subsOf, []⟩ ws).queue = q
    induction q with
    | nil => rfl
    | cons x q ih => simp [List.replicate, ih]

namespace NQuery

/-! ### The flush's per-effect exception guard (claim C9)

The flush in `scheduleEffect` copies the queue, clears it, then runs
`toRun.forEach(fn => { try { fn() } catch (e) { console.error(...) } })`.
An effect's behaviour is modelled as `Except String Unit`; the guarded flush
returns the list of effects that actually ran together with the reported
errors — its total (non-`Except`) return type is the model of "no exception
propagates out of the flush". -/

def flushEffects (behav : Nat → Except String Unit) :
    List Nat → List Nat × List (Nat × String)
  | [] => ([], [])
  | e :: rest =>
      let r := flushEffects behav rest
      match behav e with
      | Except.ok _ => (e :: r.1, r.2)
      | Except.error m => (e :: r.1, (e, m) :: r.2)

end NQuery

/-- Claim C9: for every effect behaviour (including throwing ones) and every
scheduled queue, the guarded flush runs every scheduled effect — a thrown
exception never prevents the remaining effects of the same flush from running
— and reports exactly the errors of the throwing effects; the flush itself
always returns normally. -/
theorem c9_flush_catches_per_effect (behav : Nat → Except String Unit)
    (q : List Nat) :
    (NQuery.flushEffects behav q).1 = q ∧
    (NQuery.flushEffects behav q).2 = q.filterMap (fun e =>
      match behav e with
      | Except.ok _ => none
      | Except.error m => some (e, m)) := by
  induction q with
  | nil => exact ⟨rfl, rfl⟩
  | cons e rest ih =>
      unfold NQuery.flushEffects
      cases hb : behav e with
      | ok u => simp [hb, ih.1, ih.2]
      | error m => simp [hb, ih.1, ih.2]

namespace NQuery

/-! ### Effect dependency bookkeeping (claim C6)

`effect(fn)`'s runner first calls `cleanupEffect(runner)` — which removes the
runner from every subscriber set recorded in `runner._deps` and clears
`_deps` — and then runs `fn`; every signal read during the run adds the runner
to that signal's subscriber set and adds that set to `runner._deps`.  Each
signal owns exactly one subscriber set, so `_deps` is modelled as the list of
signal indices whose set contains this effect.  `DepSt` is the world seen by
one effect `e`: the subscriber set of every signal plus `e._deps`. -/

structure DepSt where
  subsOf : Nat → List Nat
  deps : List Nat

/-- `cleanupEffect(effectFn)`: delete the effect from every subscriber set
held in `_deps`, then clear `_deps`. -/
def cleanupEffect (e : Nat) (st : DepSt) : DepSt :=
  { subsOf := fun s =>
      if s ∈ st.deps then (st.subsOf s).filter (fun x => x ≠ e) else st.subsOf s,
    deps := [] }

/-- A signal read inside the effect's run (`get value`): add the effect to the
signal's subscriber set and record that set in `_deps`. -/
def readSignal (e : Nat) (st : DepSt) (s : Nat) : DepSt :=
  { subsOf := Function.update st.subsOf s (addDedup (st.subsOf s) e),
    deps := addDedup st.deps s }

/-- One run of the effect: cleanup, then perform the reads of this run. -/
def runEffect (e : Nat) (st : DepSt) (reads : List Nat) : DepSt :=
  reads.foldl (readSignal e) (cleanupEffect e st)

/-- Bookkeeping invariant: the effect appears only in subscriber sets that are
recorded in its `_deps`. -/
def DepInv (e : Nat) (st : DepSt) : Prop :=
  ∀ s, e ∈ st.subsOf s → s ∈ st.deps

theorem cleanupEffect_clean (e : Nat) (st : DepSt) (h : DepInv e st) (s : Nat) :
    e ∉ (cleanupEffect e st).subsOf s := by
  unfold cleanupEffect
  by_cases hs : s ∈ st.deps
  · simp [hs]
  · simp [hs]
    intro hmem
    exact hs (h s hmem)

theorem foldl_readSignal_mem (e : Nat) (R : List Nat) (st : DepSt) (s : Nat) :
    (s ∈ (R.foldl (readSignal e) st).deps ↔ s ∈ st.deps ∨ s ∈ R) ∧
    (e ∈ (R.foldl (readSignal e) st).subsOf s ↔ e ∈ st.subsOf s ∨ s ∈ R) := by
  induction R generalizing st with
  | nil => simp
  | cons r R ih =>
      have hstep : (r :: R).foldl (readSignal e) st = R.foldl (readSignal e) (readSignal e st r) := rfl
      rw [hstep]
      have h1 := (ih (readSignal e st r)).1
      have h2 := (ih (readSignal e st r)).2
      constructor
      · rw [h1]
        simp [readSignal, mem_addDedup]
        tauto
      · rw [h2]
        by_cases hsr : s = r
        · subst hsr
          simp [readSignal, Function.update_same, mem_addDedup]
        · simp only [readSignal, Function.update_noteq hsr]
          simp [List.mem_cons, hsr]

theorem runEffect_char (e : Nat) (st : DepSt) (R : List Nat) (h : DepInv e st) (s : Nat) :
    (s ∈ (runEffect e st R).deps ↔ s ∈ R) ∧
    (e ∈ (runEffect e st R).subsOf s ↔ s ∈ R) := by
  unfold runEffect
  have h1 := (foldl_readSignal_mem e R (cleanupEffect e st) s).1
  have h2 := (foldl_readSignal_mem e R (cleanupEffect e st) s).2
  constructor
  · rw [h1]
    simp [cleanupEffect]
  · rw [h2]
    have := cleanupEffect_clean e st h s
    tauto

theorem runEffect_inv (e : Nat) (st : DepSt) (R : List Nat) (h : DepInv e st) :
    DepInv e (runEffect e st R) := by
  intro s hmem
  have hc := runEffect_char e st R h s
  exact hc.1.mpr (hc.2.mp hmem)

end NQuery

/-- Claim C6: starting from a fresh effect (registered in no subscriber set,
empty `_deps`), after a first run reading the signals `R1` and a second run
reading the signals `R2`, the recorded dependency set equals exactly the set
of signals read during the latest run, and the effect is registered in a
signal's subscriber set exactly when that signal was read in the latest run —
dependencies from `R1` that are absent from `R2` are dropped by the cleanup
that precedes the second run. -/
theorem c6_deps_equal_latest_reads (e : Nat) (R1 R2 : List Nat) :
    ∀ s : Nat,
      (s ∈ (NQuery.runEffect e (NQuery.runEffect e ⟨fun _ => [], []⟩ R1) R2).deps
        ↔ s ∈ R2) ∧
      (e ∈ (NQuery.runEffect e (NQuery.runEffect e ⟨fun _ => [], []⟩ R1) R2).subsOf s
        ↔ s ∈ R2) := by
  intro s
  have h0 : NQuery.DepInv e ⟨fun _ => [], []⟩ := by
    intro s h
    simp at h
  exact NQuery.runEffect_char e _ R2 (NQuery.runEffect_inv e _ R1 h0) s

namespace NQuery

/-! ### Query lifecycle (`Query`, claims C1, C3, C4, C7)

`Query._run` is split at its single `await fetchFn()` into `startRun` (the
synchronous prefix: the `allowStale` early return, `++this.requestId`,
aborting and replacing the abort controller, setting `isFetching` and possibly
`status`) and the two synchronous completions `completeSuccess` /
`completeFailure` (the code after the `await`, resp. the `catch` block).  The
completions carry the `currentId` captured by the attempt.  The four status
strings `"idle" | "loading" | "success" | "error"` are the constructors of
`QStatus`; configured callbacks are modelled as emitted `QEvent`s and the
promise outcome of `_run` as `Except String (Option Int)` (`Except.error` is
the re-thrown rejection). -/

inductive QStatus
  | idle
  | loading
  | success
  | error
deriving DecidableEq

inductive QEvent
  | onSuccess (v : Int)
  | onError (e : String)
  | onSettled (v : Option Int) (e : Option String)
deriving DecidableEq

structure QOptions where
  staleTime : Nat
  keepPreviousData : Bool
  forceRefetch : Bool
  select : Option (Int → Int)

structure QState where
  data : Option Int
  error : Option String
  status : QStatus
  isFetching : Bool
  lastUpdated : Nat
  requestId : Nat
  hasAbort : Bool
deriving DecidableEq

/-- The constructor's signal initialisation: `data` from `options.initialData`,
status `"success"` when initial data is given, else `"idle"`. -/
def QState.create (initialData : Option Int) : QState :=
  { data := initialData, error := none,
    status := if initialData.isSome then QStatus.success else QStatus.idle,
    isFetching := false, lastUpdated := 0, requestId := 0, hasAbort := false }

/-- `Query.isStale()`: `now() - this.lastUpdated > this.staleTime`. -/
def isStale (o : QOptions) (t : Nat) (q : QState) : Bool :=
  decide (o.staleTime < t - q.lastUpdated)

/-- `this.select ? this.select(raw) : raw`. -/
def selectApply (o : QOptions) (raw : Int) : Int :=
  match o.select with
  | some f => f raw
  | none => raw

/-- The synchronous prefix of `_run(force)` at time `t`: either the
`allowStale` early return (second component `false`: the fetcher is not
invoked), or the start of a new attempt — increment `requestId`, install a
fresh abort controller, set `isFetching`, force `status` to `"loading"`
unless this is a background refetch with `keepPreviousData`.  The third
component is the attempt's captured `currentId`. -/
def startRun (o : QOptions) (force : Bool) (t : Nat) (q : QState) :
    QState × Bool × Nat :=
  let allowStale := !force && !(isStale o t q) &&
    decide (q.status = QStatus.success) && !o.forceRefetch
  if allowStale then (q, false, q.requestId)
  else
    let rid := q.requestId + 1
    let isBackground := decide (q.status = QStatus.success)
    ({ q with requestId := rid,
              hasAbort := true,
              isFetching := true,
              status := if !isBackground || !o.keepPreviousData then
                  QStatus.loading
                else q.status },
     true, rid)

/-- The code after `await fetchFn()` resolves with `raw` at time `t`, for the
attempt that captured `cid`: a stale `currentId` returns the current data and
touches nothing; otherwise commit data/status/error/lastUpdated, clear
`isFetching`, fire `onSuccess` and `onSettled`, and resolve with the selected
value. -/
def completeSuccess (o : QOptions) (cid : Nat) (raw : Int) (t : Nat)
    (q : QState) : QState × Except String (Option Int) × List QEvent :=
  if cid ≠ q.requestId then (q, Except.ok q.data, [])
  else
    ({ q with data := some (selectApply o raw), status := QStatus.success,
              error := none, lastUpdated := t, isFetching := false },
     Except.ok (some (selectApply o raw)),
     [QEvent.onSuccess (selectApply o raw),
      QEvent.onSettled (some (selectApply o raw)) none])

/-- The `catch` block of `_run`, for the attempt that captured `cid`: an
`AbortError` (with an abort controller installed) is ignored, resolving with
the current data; a stale `currentId` likewise commits nothing; otherwise
commit the error, transition to `"error"`, clear `isFetching`, fire `onError`
and `onSettled`, and re-throw. -/
def completeFailure (cid : Nat) (abortError : Bool) (er : String)
    (q : QState) : QState × Except String (Option Int) × List QEvent :=
  if q.hasAbort && abortError then (q, Except.ok q.data, [])
  else if cid ≠ q.requestId then (q, Except.ok q.data, [])
  else
    ({ q with error := some er, status := QStatus.error, isFetching := false },
     Except.error er,
     [QEvent.onError er, QEvent.onSettled none (some er)])

/-- Any of the synchronous state transitions of a `Query` that can interleave
between an attempt's start and its completion. -/
inductive QOp
  | start (force : Bool) (t : Nat)
  | finishOk (cid : Nat) (raw : Int) (t : Nat)
  | finishErr (cid : Nat) (abortError : Bool) (er : String)

def applyOp (o : QOptions) (q : QState) : QOp → QState
  | QOp.start force t => (startRun o force t q).1
  | QOp.finishOk cid raw t => (completeSuccess o cid raw t q).1
  | QOp.finishErr cid ab er => (completeFailure cid ab er q).1

def applyOps (o : QOptions) (q : QState) (ops : List QOp) : QState :=
  ops.foldl (applyOp o) q

/-- A complete, non-overlapped `_run`: the synchronous prefix followed — when
the fetcher was actually invoked — by the completion for the given fetch
outcome.  The final component records whether the fetcher was invoked. -/
inductive FetchOutcome
  | ok (raw : Int) (t : Nat)
  | err (abortError : Bool) (er : String)

def runOnce (o : QOptions) (force : Bool) (t : Nat) (q : QState)
    (out : FetchOutcome) :
    QState × Except String (Option Int) × List QEvent × Bool :=
  let s := startRun o force t q
  if s.2.1 then
    match out with
    | FetchOutcome.ok raw t2 =>
        let c := completeSuccess o s.2.2 raw t2 s.1
        (c.1, c.2.1, c.2.2, true)
    | FetchOutcome.err ab er =>
        let c := completeFailure s.2.2 ab er s.1
        (c.1, c.2.1, c.2.2, true)
  else (s.1, Except.ok s.1.data, [], false)

/-- `requestId` never decreases under any interleaved transition. -/
theorem applyOp_requestId_le (o : QOptions) (q : QState) (op : QOp) :
    q.requestId ≤ (applyOp o q op).requestId := by
  cases op with
  | start force t =>
      simp only [applyOp, startRun]
      split
      · exact Nat.le_refl _
      · exact Nat.le_succ _
  | finishOk cid raw t =>
      simp only [applyOp, completeSuccess]
      split
      · exact Nat.le_refl _
      · exact Nat.le_refl _
  | finishErr cid ab er =>
      simp only [applyOp, completeFailure]
      split
      · exact Nat.le_refl _
      · split
        · exact Nat.le_refl _
        · exact Nat.le_refl _

theorem applyOps_requestId_le (o : QOptions) (ops : List QOp) (q : QState) :
    q.requestId ≤ (applyOps o q ops).requestId := by
  induction ops generalizing q with
  | nil => exact Nat.le_refl _
  | cons op ops ih =>
      exact Nat.le_trans (applyOp_requestId_le o q op) (ih (applyOp o q op))

end NQuery

/-- Claim C1: starting from a fresh query, an attempt is started and a second
attempt is started before the first resolves (so the second captures a larger
`requestId`); after any further interleaved transitions, the first attempt's
eventual resolution — successful or failing, aborted or not — leaves the
data/error/status signals (indeed the whole state) unchanged, resolves with
the current data instead of rejecting, and fires no callback; while the
current attempt's success does commit to the data and status signals. -/
theorem c1_superseded_resolution_noop (o : NQuery.QOptions) (f1 f2 : Bool)
    (t1 t2 t3 t4 : Nat) (raw raw2 : Int) (ab : Bool) (er : String)
    (ops : List NQuery.QOp) :
    let r1 := NQuery.startRun o f1 t1 (NQuery.QState.create none)
    let r2 := NQuery.startRun o f2 t2 r1.1
    let q3 := NQuery.applyOps o r2.1 ops
    r1.2.1 = true ∧ r2.2.1 = true ∧
    NQuery.completeSuccess o r1.2.2 raw t3 q3 = (q3, Except.ok q3.data, []) ∧
    NQuery.completeFailure r1.2.2 ab er q3 = (q3, Except.ok q3.data, []) ∧
    (NQuery.completeSuccess o r2.2.2 raw2 t4 r2.1).1.status =
      NQuery.QStatus.success ∧
    (NQuery.completeSuccess o r2.2.2 raw2 t4 r2.1).1.data =
      some (NQuery.selectApply o raw2) := by
  have hr1 : NQuery.startRun o f1 t1 (NQuery.QState.create none) =
      (⟨none, none, NQuery.QStatus.loading, true, 0, 1, true⟩, true, 1) := by
    simp [NQuery.startRun, NQuery.QState.create]
  have hr2 : NQuery.startRun o f2 t2
        ⟨none, none, NQuery.QStatus.loading, true, 0, 1, true⟩ =
      (⟨none, none, NQuery.QStatus.loading, true, 0, 2, true⟩, true, 2) := by
    simp [NQuery.startRun]
  dsimp only
  rw [hr1]
  dsimp only
  rw [hr2]
  dsimp only
  have hmono : 2 ≤ (NQuery.applyOps o
      ⟨none, none, NQuery.QStatus.loading, true, 0, 2, true⟩ ops).requestId := by
    simpa using NQuery.applyOps_requestId_le o ops
      ⟨none, none, NQuery.QStatus.loading, true, 0, 2, true⟩
  have hne : (1 : Nat) ≠ (NQuery.applyOps o
      ⟨none, none, NQuery.QStatus.loading, true, 0, 2, true⟩ ops).requestId := by
    omega
  refine ⟨rfl, rfl, ?_, ?_, ?_, ?_⟩
  · simp [NQuery.completeSuccess, hne]
  · unfold NQuery.completeFailure
    by_cases hab : ((NQuery.applyOps o
        ⟨none, none, NQuery.QStatus.loading, true, 0, 2, true⟩ ops).hasAbort
          && ab) = true
    · simp [hab]
    · simp [hab, hne]
  · simp [NQuery.completeSuccess]
  · simp [NQuery.completeSuccess]

/-- Claim C3 (counterexample): a fresh query starts an attempt (installing an
abort controller and setting the in-flight flag); when the fetch rejects with
the distinguished `AbortError`, the catch block only returns the current data
— the in-flight flag is NOT cleared, contradicting the claim that it is. -/
theorem c3_abort_counterexample :
    ¬((NQuery.completeFailure 1 true "AbortError"
        (NQuery.startRun ⟨60000, false, false, none⟩ false 0
          (NQuery.QState.create none)).1).1.isFetching = false) := by
  decide

/-- Claim C3 (amended): a fetch attempt completing with the distinguished
aborted condition (an `AbortError` while an abort controller is installed) is
treated as neither success nor error: the entire state — data, error, status,
and also the in-flight flag, which is left set rather than cleared — is
unchanged, no callback fires, and the attempt resolves with the prior data. -/
theorem c3_abort_full_noop (q : NQuery.QState) (cid : Nat) (er : String) :
    NQuery.completeFailure cid true er
        { q with hasAbort := true } =
      ({ q with hasAbort := true }, Except.ok q.data, []) ∧
    (NQuery.completeFailure cid true er { q with hasAbort := true }).1.isFetching
      = q.isFetching := by
  constructor
  · simp [NQuery.completeFailure]
  · simp [NQuery.completeFailure]

/-- Claim C7: a fetch attempt failing with a non-aborted error whose captured
sequence number is still current commits the error signal, transitions the
status signal to `error`, leaves the data signal untouched, clears the
in-flight flag, fires the `onError` and `onSettled` callbacks with that error,
and re-throws it, so the promise returned by `refetch` rejects with it. -/
theorem c7_failure_commits_error (q : NQuery.QState) (er : String) :
    NQuery.completeFailure q.requestId false er q =
      ({ q with error := some er, status := NQuery.QStatus.error,
                isFetching := false },
       Except.error er,
       [NQuery.QEvent.onError er, NQuery.QEvent.onSettled none (some er)]) ∧
    (NQuery.completeFailure q.requestId false er q).1.data = q.data := by
  constructor
  · simp [NQuery.completeFailure]
  · simp [NQuery.completeFailure]

/-- Claim C4 (counterexample): a query whose `forceRefetch` option is set,
in success status with perfectly fresh data (elapsed 50ms, stale duration
60000ms), still launches the fetcher on a non-forced trigger: the fourth
`allowStale` conjunct `!this.options.forceRefetch` defeats the no-op that the
claim promises for every query. -/
theorem c4_freshness_counterexample :
    (NQuery.startRun ⟨60000, false, true, none⟩ false 150
      ⟨some 5, none, NQuery.QStatus.success, false, 100, 3, false⟩).2.1 = true ∧
    ¬((NQuery.startRun ⟨60000, false, true, none⟩ false 150
      ⟨some 5, none, NQuery.QStatus.success, false, 100, 3, false⟩).2.1
        = false) := by
  constructor
  · decide
  · decide

/-- Claim C4 (amended): for every query whose `forceRefetch` option is unset,
in success status, triggered without force while the elapsed time since the
last success is less than the stale duration, the run performs no fetcher
invocation, changes nothing and resolves with the cached data; in particular
with stale duration 60000ms, a first (fetching) call that succeeds at `t1`
followed by a non-forced call at `t2` with `t2 - t1 < 60000` invokes the
fetcher exactly once: the first call fetches, the second does not. -/
theorem c4_fresh_success_skips_fetch (o : NQuery.QOptions) (q : NQuery.QState)
    (t t0 t1 t2 : Nat) (raw : Int) (out2 : NQuery.FetchOutcome)
    (hfr : o.forceRefetch = false)
    (hst : q.status = NQuery.QStatus.success)
    (hfresh : t - q.lastUpdated < o.staleTime)
    (hst60 : o.staleTime = 60000)
    (hwithin : t2 - t1 < 60000) :
    (∀ out : NQuery.FetchOutcome,
      NQuery.runOnce o false t q out = (q, Except.ok q.data, [], false)) ∧
    (NQuery.runOnce o false t0 (NQuery.QState.create none)
        (NQuery.FetchOutcome.ok raw t1)).2.2.2 = true ∧
    (NQuery.runOnce o false t2
        (NQuery.runOnce o false t0 (NQuery.QState.create none)
          (NQuery.FetchOutcome.ok raw t1)).1 out2).2.2.2 = false := by
  have hnotstale : NQuery.isStale o t q = false := by
    simp only [NQuery.isStale, decide_eq_false_iff_not]
    omega
  refine ⟨?_, ?_, ?_⟩
  · intro out
    simp [NQuery.runOnce, NQuery.startRun, hnotstale, hst, hfr]
  · simp [NQuery.runOnce, NQuery.startRun, NQuery.QState.create]
  · have h1 : (NQuery.runOnce o false t0 (NQuery.QState.create none)
        (NQuery.FetchOutcome.ok raw t1)).1 =
        ⟨some (NQuery.selectApply o raw), none, NQuery.QStatus.success,
          false, t1, 1, true⟩ := by
      simp [NQuery.runOnce, NQuery.startRun, NQuery.QState.create,
        NQuery.completeSuccess]
    rw [h1]
    have h2 : NQuery.isStale o t2
        ⟨some (NQuery.selectApply o raw), none, NQuery.QStatus.success,
          false, t1, 1, true⟩ = false := by
      simp only [NQuery.isStale, decide_eq_false_iff_not]
      omega
    simp [NQuery.runOnce, NQuery.startRun, h2, hfr]

/-- Witness for the amended claim C4 at a concrete query: stale duration
60000ms, last success at 100, non-forced trigger at 150 — no fetch, cached
data returned, state unchanged. -/
theorem c4_fresh_success_skips_fetch_witness :
    NQuery.runOnce ⟨60000, false, false, none⟩ false 150
      ⟨some 5, none, NQuery.QStatus.success, false, 100, 3, false⟩
      (NQuery.FetchOutcome.ok 7 10) =
      (⟨some 5, none, NQuery.QStatus.success, false, 100, 3, false⟩,
       Except.ok (some 5), [], false) :=
  (c4_fresh_success_skips_fetch ⟨60000, false, false, none⟩
    ⟨some 5, none, NQuery.QStatus.success, false, 100, 3, false⟩
    150 0 10 20 7 (NQuery.FetchOutcome.ok 7 10)
    rfl rfl (by decide) rfl (by decide)).1 (NQuery.FetchOutcome.ok 7 10)

namespace NQuery

/-! ### `hashKey` and `QueryClient.createQuery` (claims C8, C10)

`hashKey(key)` returns string keys unchanged and serializes every other key
with `JSON.stringify`.  Claims C8 and C10 only exercise string and number
keys, so the key type embeds that fragment; `JSON.stringify` of an integral
number is its decimal representation.  The client's `queries` `Map` is an
association list from hash to query index; queries themselves live in an
append-only store so that "identity-equal" means "same store index".  The
first lookup hit returns the existing query untouched, ignoring the new
fetcher and options (modelled as opaque tokens). -/

inductive JKey
  | kstr (s : String)
  | knum (n : Int)
deriving DecidableEq

/-- `hashKey`: strings pass through, other keys are JSON-serialized. -/
def hashKey : JKey → String
  | JKey.kstr s => s
  | JKey.knum n => toString n

structure QueryRec where
  key : JKey
  fetcher : Nat
  opts : Nat
deriving DecidableEq

structure Client where
  store : List QueryRec
  table : List (String × Nat)
deriving DecidableEq

def Client.empty : Client := ⟨[], []⟩

/-- `this.queries.get(hash)`. -/
def lookupQ (t : List (String × Nat)) (h : String) : Option Nat :=
  (t.find? (fun p => p.1 == h)).map (fun p => p.2)

/-- `QueryClient.createQuery(key, fetcher, options)`: return the existing
query for the hashed key if present, else construct a new one and register it
under the hash.  Returns the (possibly updated) client and the index of the
returned query. -/
def createQuery (c : Client) (k : JKey) (f : Nat) (o : Nat) : Client × Nat :=
  match lookupQ c.table (hashKey k) with
  | some qid => (c, qid)
  | none =>
      let qid := c.store.length
      ({ store := c.store ++ [⟨k, f, o⟩], table := c.table ++ [(hashKey k, qid)] },
       qid)

theorem lookupQ_append_self (t : List (String × Nat)) (h : String) (qid : Nat)
    (hnone : lookupQ t h = none) :
    lookupQ (t ++ [(h, qid)]) h = some qid := by
  induction t with
  | nil => simp [lookupQ]
  | cons p t ih =>
      by_cases hp : p.1 == h
      · exfalso
        simp [lookupQ, List.find?, hp] at hnone
      · have ht : lookupQ t h = none := by
          simpa [lookupQ, List.find?, hp] using hnone
        simpa [lookupQ, List.find?, hp] using ih ht

theorem getElem?_append_length (l : List QueryRec) (x : QueryRec) :
    (l ++ [x])[l.length]? = some x := by
  induction l with
  | nil => rfl
  | cons y l ih => simp [ih]

end NQuery

/-- Claim C8: when a key is not yet cached, the first `createQuery` call
creates and registers a query holding the first caller's fetcher and options,
and a second call with the same key — regardless of its fetcher and options —
returns exactly that query (same store index, i.e. identity-equal) and leaves
the client, hence the stored fetcher and options, completely unchanged. -/
theorem c8_same_key_returns_first_instance (c : NQuery.Client)
    (k : NQuery.JKey) (f1 o1 f2 o2 : Nat)
    (hfresh : NQuery.lookupQ c.table (NQuery.hashKey k) = none) :
    NQuery.createQuery (NQuery.createQuery c k f1 o1).1 k f2 o2 =
      ((NQuery.createQuery c k f1 o1).1, (NQuery.createQuery c k f1 o1).2) ∧
    (NQuery.createQuery c k f1 o1).1.store[(NQuery.createQuery c k f1 o1).2]? =
      some ⟨k, f1, o1⟩ := by
  have h1 : NQuery.createQuery c k f1 o1 =
      ({ store := c.store ++ [⟨k, f1, o1⟩],
         table := c.table ++ [(NQuery.hashKey k, c.store.length)] },
       c.store.length) := by
    simp [NQuery.createQuery, hfresh]
  rw [h1]
  constructor
  · simp [NQuery.createQuery,
      NQuery.lookupQ_append_self c.table (NQuery.hashKey k) c.store.length hfresh]
  · exact NQuery.getElem?_append_length c.store ⟨k, f1, o1⟩

/-- Witness for claim C8 on an empty client and the key `"k"`: the second
call returns the query created by the first call with fetcher `1`, ignoring
fetcher `2`. -/
theorem c8_same_key_returns_first_instance_witness :
    NQuery.createQuery
        (NQuery.createQuery NQuery.Client.empty (NQuery.JKey.kstr "k") 1 10).1
        (NQuery.JKey.kstr "k") 2 20 =
      ((NQuery.createQuery NQuery.Client.empty (NQuery.JKey.kstr "k") 1 10).1,
       (NQuery.createQuery NQuery.Client.empty (NQuery.JKey.kstr "k") 1 10).2) ∧
    (NQuery.createQuery NQuery.Client.empty (NQuery.JKey.kstr "k") 1 10).1.store[
        (NQuery.createQuery NQuery.Client.empty (NQuery.JKey.kstr "k") 1 10).2]? =
      some ⟨NQuery.JKey.kstr "k", 1, 10⟩ :=
  c8_same_key_returns_first_instance NQuery.Client.empty
    (NQuery.JKey.kstr "k") 1 10 2 20 rfl

/-- Claim C10: the string key `"1"` and the number key `1` are distinct keys
with the same hash (`hashKey` serializes the number `1` to the string `"1"`),
so after `createQuery` with the string key `"1"`, a `createQuery` with the
number key `1` returns the query instance created for `"1"` — same store
index, client unchanged, no new query created. -/
theorem c10_string_number_key_collision :
    NQuery.hashKey (NQuery.JKey.kstr "1") = NQuery.hashKey (NQuery.JKey.knum 1) ∧
    NQuery.JKey.kstr "1" ≠ NQuery.JKey.knum 1 ∧
    NQuery.createQuery
        (NQuery.createQuery NQuery.Client.empty (NQuery.JKey.kstr "1") 1 10).1
        (NQuery.JKey.knum 1) 2 20 =
      ((NQuery.createQuery NQuery.Client.empty (NQuery.JKey.kstr "1") 1 10).1,
       (NQuery.createQuery NQuery.Client.empty (NQuery.JKey.kstr "1") 1 10).2) ∧
    (NQuery.createQuery
        (NQuery.createQuery NQuery.Client.empty (NQuery.JKey.kstr "1") 1 10).1
        (NQuery.JKey.knum 1) 2 20).1.store.length = 1 := by
  refine ⟨rfl, by decide, ?_, ?_⟩
  · rfl
  · rfl
